import Mathlib

/-!
Verification of the dns-ci-cd pipeline (`dns_cicd/__init__.py`).

Shallow embedding: Python integers become `Int`/`Nat`, strings become
`String`/`List Char`, fallible code returns `Except`/`Option`, and external
collaborators (git, the zone compiler, the clock) are passed in as explicit
parameters.  Each definition mirrors one Python function of the source.
-/

set_option autoImplicit false

namespace DnsCicd

/-- Embedding of `is_serial_increased(old, new)` from the source:
`diff = (new - old) % 2**32; return 0 < diff < (2**31 - 1)`.
Python `%` on ints agrees with `Int.emod` for a positive modulus. -/
def is_serial_increased (old n : Int) : Bool :=
  let diff := (n - old) % (2 ^ 32)
  decide (0 < diff ∧ diff < 2 ^ 31 - 1)

/-- Embedding of `get_increased_serial(old)` from the source, with the two external time
readings made explicit: `now = int(time.time())` and
`todayserial = int(datetime.date.today().strftime("%Y%m%d00"))`.
The Python chained comparisons `1e9 < old < now` and
`2e9 < old < todayserial` are exact on these integer ranges. -/
def get_increased_serial (old now todayserial : Int) : Int :=
  if 1000000000 < old ∧ old < now then now
  else if 2000000000 < old ∧ old < todayserial then todayserial
  else old + 1

/-- C1: for 32-bit serials, `is_serial_increased old new` is true iff
`(new - old) mod 2^32` lies strictly between `0` and `2^31 - 1`; in
particular `is_serial_increased a a` is false for every serial `a`,
`is_serial_increased (2^32 - 1) 0` is true, and
`is_serial_increased 0 (2^32 - 1)` is false. -/
theorem is_serial_increased_rfc1982 :
    (∀ old n : Int, 0 ≤ old → old < 2 ^ 32 → 0 ≤ n → n < 2 ^ 32 →
      (is_serial_increased old n = true ↔
        0 < (n - old) % 2 ^ 32 ∧ (n - old) % 2 ^ 32 < 2 ^ 31 - 1))
    ∧ (∀ a : Int, is_serial_increased a a = false)
    ∧ is_serial_increased (2 ^ 32 - 1) 0 = true
    ∧ is_serial_increased 0 (2 ^ 32 - 1) = false := by
  refine ⟨fun old n _ _ _ _ => ?_, fun a => ?_, by decide, by decide⟩
  · simp [is_serial_increased]
  · simp [is_serial_increased]

/-- Witness for C1: the general equivalence applied at the concrete serials
`old = 5`, `new = 6`. -/
theorem is_serial_increased_rfc1982_witness :
    is_serial_increased 5 6 = true :=
  (is_serial_increased_rfc1982.1 5 6 (by norm_num) (by norm_num) (by norm_num)
    (by norm_num)).mpr (by decide)

/-- C3: `get_increased_serial` classifies `old` with the checks in this exact
order: timestamp-style first (`1e9 < old < now` returns `now`), then
date-style (`2e9 < old < todayserial` returns `todayserial`), else
`old + 1`. -/
theorem get_increased_serial_branches :
    ∀ old now todayserial : Int,
      ((1000000000 < old ∧ old < now) →
        get_increased_serial old now todayserial = now)
      ∧ (¬(1000000000 < old ∧ old < now) →
          (2000000000 < old ∧ old < todayserial) →
          get_increased_serial old now todayserial = todayserial)
      ∧ (¬(1000000000 < old ∧ old < now) →
          ¬(2000000000 < old ∧ old < todayserial) →
          get_increased_serial old now todayserial = old + 1) := by
  intro old now todayserial
  refine ⟨fun h => ?_, fun h1 h2 => ?_, fun h1 h2 => ?_⟩
  all_goals
    unfold get_increased_serial
    split_ifs <;> simp_all

/-- Witness for C3: all three branches exercised at concrete serials
(`1500000000` timestamp-style, `2020010100` date-style, `42` plain). -/
theorem get_increased_serial_branches_witness :
    get_increased_serial 1500000000 1600000000 2024010100 = 1600000000
    ∧ get_increased_serial 2020010100 1600000000 2024010100 = 2024010100
    ∧ get_increased_serial 42 1600000000 2024010100 = 43 :=
  ⟨(get_increased_serial_branches 1500000000 1600000000 2024010100).1
      (by norm_num),
   (get_increased_serial_branches 2020010100 1600000000 2024010100).2.1
      (by norm_num) (by norm_num),
   (get_increased_serial_branches 42 1600000000 2024010100).2.2
      (by norm_num) (by norm_num)⟩

/-- C2 counterexample: with `now = 4·10⁹` (which exceeds `10⁹`, as the claim
requires) and `todayserial = 2000010100` (strictly between `2·10⁹` and
`2·10⁹ + 2³¹ - 1`), the timestamp branch returns `now`, yet
`is_serial_increased` rejects the jump from `old = 10⁹ + 1`: the difference
`2999999999` is not below `2³¹ - 1`. -/
theorem next_serial_not_increased_counterexample :
    (0 : Int) ≤ 1000000001 ∧ (1000000001 : Int) < 2 ^ 32
    ∧ (1000000000 : Int) < 4000000000
    ∧ (2000000000 : Int) < 2000010100
    ∧ (2000010100 : Int) < 2000000000 + 2 ^ 31 - 1
    ∧ is_serial_increased 1000000001
        (get_increased_serial 1000000001 4000000000 2000010100) = false := by
  refine ⟨by norm_num, by norm_num, by norm_num, by norm_num, by norm_num, ?_⟩
  decide

/-- C2 (amended): if additionally the current Unix time is below
`10⁹ + 2³¹`, then `is_serial_increased old (get_increased_serial old now
todayserial)` holds for every 32-bit serial `old`, in every classification
branch. -/
theorem next_serial_is_increased (old now todayserial : Int)
    (h0 : 0 ≤ old) (h1 : old < 2 ^ 32)
    (h2 : 1000000000 < now) (h3 : now < 1000000000 + 2 ^ 31)
    (h4 : 2000000000 < todayserial)
    (h5 : todayserial < 2000000000 + 2 ^ 31 - 1) :
    is_serial_increased old (get_increased_serial old now todayserial) = true := by
  have e32 : (2 : Int) ^ 32 = 4294967296 := by norm_num
  have e31 : (2 : Int) ^ 31 = 2147483648 := by norm_num
  rw [e32] at h1; rw [e31] at h3; rw [e31] at h5
  simp only [is_serial_increased, get_increased_serial, e32, e31]
  split_ifs with hA hB <;> simp only [decide_eq_true_eq] <;> omega

/-- Witness for C2 (amended): the date-style branch at `old = 2020010100`,
`now = 1600000000`, `todayserial = 2024010100`. -/
theorem next_serial_is_increased_witness :
    is_serial_increased 2020010100
      (get_increased_serial 2020010100 1600000000 2024010100) = true :=
  next_serial_is_increased 2020010100 1600000000 2024010100 (by norm_num)
    (by norm_num) (by norm_num) (by norm_num) (by norm_num) (by norm_num)

/-!
A small backtracking regular-expression engine with Python `re` semantics
(ordered choice: greedy quantifiers try the longest alternative first, lazy
quantifiers the shortest).  It is exactly expressive enough for the four
regexes of the source; each source pattern is transliterated below into an
`RE` term.  All the source regexes are compiled with `re.IGNORECASE`, so
literals compare case-insensitively (ASCII, via `Char.toLower`).
-/

/-- Character classes occurring in the regexes of the source.  `any` is `.`
under `re.DOTALL`; `anyNoNl` is `.` without it; `space` is `\s` (ASCII). -/
inductive CClass where
  | any
  | anyNoNl
  | space
  | digit
  | nonDigit
  | nonParen
  | nonSpaceSemi
  | nonSpaceChar
  deriving Repr, DecidableEq

/-- Python `\s` restricted to ASCII: space, tab, newline, CR, FF, VT. -/
def isPySpace (c : Char) : Bool :=
  c = ' ' ∨ c = '\t' ∨ c = '\n' ∨ c = '\x0d' ∨ c = '\x0c' ∨ c = '\x0b'

def CClass.test : CClass → Char → Bool
  | .any, _ => true
  | .anyNoNl, c => c ≠ '\n'
  | .space, c => isPySpace c
  | .digit, c => '0' ≤ c ∧ c ≤ '9'
  | .nonDigit, c => ¬('0' ≤ c ∧ c ≤ '9')
  | .nonParen, c => c ≠ ')'
  | .nonSpaceSemi, c => ¬(isPySpace c ∨ c = ';')
  | .nonSpaceChar, c => c ≠ ' '

/-- Abstract syntax of the regex fragment used by the source patterns.
Quantifiers are restricted to single-character classes, which is all the
source needs (`.*`, `\s*`, `\s+`, `[^)]+`, `[0-9]+`, `[^ ]+`, `.+?`). -/
inductive RE where
  | eps
  | cls (c : CClass)
  | lit (s : List Char)
  | seq (a b : RE)
  | opt (a : RE)
  | starG (c : CClass)
  | plusG (c : CClass)
  | plusL (c : CClass)
  | grp (i : Nat) (a : RE)
  | bol
  | eol
  deriving Repr

/-- Captured groups: `(index, start, end)` positions into the subject. -/
abbrev Caps := List (Nat × Nat × Nat)

/-- Greedy closure of a character class: consume as much as possible, then
give back one character at a time until the continuation succeeds. -/
def starGreedy {β : Type} (p : Char → Bool) :
    Nat → List Char → (Nat → List Char → Option β) → Option β
  | pos, [], k => k pos []
  | pos, c :: rest, k =>
    if p c then (starGreedy p (pos + 1) rest k) <|> k pos (c :: rest)
    else k pos (c :: rest)

/-- Lazy closure of a character class: try the continuation first, consume
one more character only on failure. -/
def starLazy {β : Type} (p : Char → Bool) :
    Nat → List Char → (Nat → List Char → Option β) → Option β
  | pos, [], k => k pos []
  | pos, c :: rest, k =>
    k pos (c :: rest) <|> (if p c then starLazy p (pos + 1) rest k else none)

/-- Case-insensitive literal match (all source patterns carry `re.I`). -/
def litMatch : List Char → Nat → List Char → Option (Nat × List Char)
  | [], pos, s => some (pos, s)
  | _ :: _, _, [] => none
  | l :: ls, pos, c :: s =>
    if l.toLower = c.toLower then litMatch ls (pos + 1) s else none

/-- Backtracking matcher.  `subject` is the whole string (used by `bol` to
inspect the previous character), `pos`/`s` the current position and
remaining input, and `k` the continuation receiving each candidate parse in
preference order. -/
def reMatch {β : Type} (subject : List Char) :
    RE → Nat → List Char → Caps → (Nat → List Char → Caps → Option β) →
    Option β
  | .eps, pos, s, caps, k => k pos s caps
  | .cls c, pos, s, caps, k =>
    match s with
    | [] => none
    | ch :: rest => if c.test ch then k (pos + 1) rest caps else none
  | .lit l, pos, s, caps, k =>
    match litMatch l pos s with
    | some (p2, s2) => k p2 s2 caps
    | none => none
  | .seq a b, pos, s, caps, k =>
    reMatch subject a pos s caps fun p2 s2 c2 => reMatch subject b p2 s2 c2 k
  | .opt a, pos, s, caps, k =>
    (reMatch subject a pos s caps k) <|> k pos s caps
  | .starG c, pos, s, caps, k =>
    starGreedy c.test pos s fun p2 s2 => k p2 s2 caps
  | .plusG c, pos, s, caps, k =>
    match s with
    | [] => none
    | ch :: rest =>
      if c.test ch then starGreedy c.test (pos + 1) rest fun p2 s2 => k p2 s2 caps
      else none
  | .plusL c, pos, s, caps, k =>
    match s with
    | [] => none
    | ch :: rest =>
      if c.test ch then starLazy c.test (pos + 1) rest fun p2 s2 => k p2 s2 caps
      else none
  | .grp i a, pos, s, caps, k =>
    reMatch subject a pos s caps fun p2 s2 c2 => k p2 s2 ((i, pos, p2) :: c2)
  | .bol, pos, s, caps, k =>
    if pos = 0 ∨ subject.get? (pos - 1) = some '\n' then k pos s caps else none
  | .eol, pos, s, caps, k =>
    match s with
    | [] => k pos s caps
    | _ :: _ => none

/-- One `re` scan: try each start position left to right (Python leftmost
preference), with full backtracking at each; on success return the match
span `[start, end)` and the captures. -/
def reScanFrom (subject : List Char) (re : RE) :
    Nat → List Char → Option (Nat × Nat × Caps)
  | pos, [] =>
    match reMatch subject re pos [] [] (fun p2 _ c2 => some (p2, c2)) with
    | some (e, caps) => some (pos, e, caps)
    | none => none
  | pos, c :: rest =>
    match reMatch subject re pos (c :: rest) [] (fun p2 _ c2 => some (p2, c2)) with
    | some (e, caps) => some (pos, e, caps)
    | none => reScanFrom subject re (pos + 1) rest

/-- Slice of the subject captured by group `i` (Python `m.group(i)`). -/
def capSlice (subject : List Char) (caps : Caps) (i : Nat) : List Char :=
  match caps.find? (fun t => t.1 = i) with
  | some (_, b, e) => (subject.take e).drop b
  | none => []

/-- Python `Pattern.subn(repl, s)`: repeatedly scan, replace, and resume
after the match; an empty match emits the replacement, copies one character
and advances (the `re` empty-match rule).  The fuel is `s.length + 1`, an
upper bound on the number of matches. -/
def subnAux (subject : List Char) (re : RE) (repl : Caps → List Char) :
    Nat → Nat → List Char → Nat → List Char × Nat
  | 0, _, s, count => (s, count)
  | fuel + 1, pos, s, count =>
    match reScanFrom subject re pos s with
    | none => (s, count)
    | some (b, e, caps) =>
      let pre := s.take (b - pos)
      let replaced := repl caps
      if b < e then
        let r := subnAux subject re repl fuel e (s.drop (e - pos)) (count + 1)
        (pre ++ replaced ++ r.1, r.2)
      else
        match s.drop (b - pos) with
        | [] => (pre ++ replaced, count + 1)
        | ch :: rest2 =>
          let r := subnAux subject re repl fuel (b + 1) rest2 (count + 1)
          (pre ++ replaced ++ [ch] ++ r.1, r.2)

def pySubn (re : RE) (repl : List Char → Caps → List Char)
    (s : List Char) : List Char × Nat :=
  subnAux s re (repl s) (s.length + 1) 0 s 0

/-- Transliteration of `SERIAL_RE` from the source:
`(^.*\sSOA\s[^)]+\s)1\s*;\s*SERIALAUTOUPDATE` with
`re.DOTALL | re.IGNORECASE | re.MULTILINE` (so `.` matches newlines and `^`
matches at every line start). -/
def SERIAL_RE : RE :=
  .seq
    (.grp 1 (.seq .bol (.seq (.starG .any) (.seq (.cls .space)
      (.seq (.lit "SOA".toList) (.seq (.cls .space)
        (.seq (.plusG .nonParen) (.cls .space))))))))
    (.seq (.lit "1".toList) (.seq (.starG .space) (.seq (.lit ";".toList)
      (.seq (.starG .space) (.lit "SERIALAUTOUPDATE".toList)))))

/-- The substitution performed by `generate`:
`SERIAL_RE.subn(lambda m: f"...group(1)...serial...", f.read())`. -/
def serialSubn (text serial : List Char) : List Char × Nat :=
  pySubn SERIAL_RE (fun subject caps => capSlice subject caps 1 ++ serial) text

/-- Result of the `generate` body on one zone file: the written content and
whether the "No serial placeholder found" warning fires (`count == 0`). -/
def generateResult (text serial : List Char) : List Char × Bool :=
  let r := serialSubn text serial
  (r.1, decide (r.2 = 0))

/-- The tail of `SERIAL_RE` after the greedy `.*`: the group-1 remainder
`\sSOA\s[^)]+\s`. -/
def SERIAL_TAIL1 : RE :=
  .seq (.cls .space) (.seq (.lit "SOA".toList) (.seq (.cls .space)
    (.seq (.plusG .nonParen) (.cls .space))))

/-- The part of `SERIAL_RE` after group 1: `1\s*;\s*SERIALAUTOUPDATE`. -/
def SERIAL_TAIL2 : RE :=
  .seq (.lit "1".toList) (.seq (.starG .space) (.seq (.lit ";".toList)
    (.seq (.starG .space) (.lit "SERIALAUTOUPDATE".toList))))

/-- The continuation `SERIAL_RE` hands to its greedy `.*`: the whole tail of
the pattern matched at a candidate position `j`, with `g` the match start
recorded as the start of group 1. -/
def serialTailCont (subject : List Char) (g : Nat) :
    Nat → List Char → Option (Nat × Caps) :=
  fun j sj =>
    reMatch subject SERIAL_TAIL1 j sj []
      (fun p2 s2 c2 =>
        reMatch subject SERIAL_TAIL2 p2 s2 ((1, g, p2) :: c2)
          (fun p3 _ c3 => some (p3, c3)))

/-!
Path and zone-name helpers (`pathlib.Path` fragments and the
`get_zone_origin` / `get_zone_name` functions of the source).
-/

/-- Final path component (`os.path.basename` / `Path(...).name`): everything
after the last `/`. -/
def basenameOf (p : List Char) : List Char :=
  (p.reverse.takeWhile (fun c => c ≠ '/')).reverse

/-- Python `Path(name).stem` on a single component: drop the last `.`-suffix,
except when the only dot is the leading character (`.hidden`). -/
def stemOf (p : List Char) : List Char :=
  let b := basenameOf p
  let pre := b.reverse.takeWhile (fun c => c ≠ '.')
  if b.length = pre.length then b
  else if b.length = pre.length + 1 then b
  else b.take (b.length - pre.length - 1)

/-- Python `Path(name).suffix`: the part of the final component that
`stemOf` drops. -/
def suffixOf (p : List Char) : List Char :=
  (basenameOf p).drop (stemOf p).length

/-- `os.path.join` for a relative second component. -/
def pathJoin (a b : List Char) : List Char := a ++ '/' :: b

/-- Transliteration of the `$ORIGIN` line pattern of `get_zone_origin`:
`^\$ORIGIN\s+([^ ]+)\.\s*(;.*)?$` with `re.I` (no DOTALL, no MULTILINE;
applied per line via `re.match`, i.e. anchored at position 0). -/
def ORIGIN_RE : RE :=
  .seq .bol (.seq (.lit "$ORIGIN".toList) (.seq (.plusG .space)
    (.seq (.grp 1 (.plusG .nonSpaceChar)) (.seq (.lit ".".toList)
      (.seq (.starG .space)
        (.seq (.opt (.seq (.lit ";".toList) (.starG .anyNoNl))) .eol))))))

/-- Transliteration of the SOA-record line pattern of `get_zone_origin`:
`^[^\s;]+\s+([0-9]+\s+)?(IN\s+)?SOA\s+` with `re.I`.  The two optional
groups are not consulted by the source, so they are not captured here. -/
def SOA_LINE_RE : RE :=
  .seq .bol (.seq (.plusG .nonSpaceSemi) (.seq (.plusG .space)
    (.seq (.opt (.seq (.plusG .digit) (.plusG .space)))
      (.seq (.opt (.seq (.lit "IN".toList) (.plusG .space)))
        (.seq (.lit "SOA".toList) (.plusG .space))))))

/-- Python `re.match(pattern, line)`: anchored at position 0, no scanning. -/
def reMatchAt0 (re : RE) (line : List Char) : Option Caps :=
  reMatch line re 0 line [] fun _ _ caps => some caps

/-- Embedding of `get_zone_origin(zonedata)`: walk the lines
(`zonedata.splitlines()`, modelled as a list of newline-free lines); stop at
the first SOA-looking line; return the first `$ORIGIN` name seen before it,
lower-cased, with the trailing dot stripped by the pattern. -/
def get_zone_origin : List (List Char) → Option (List Char)
  | [] => none
  | line :: rest =>
    if (reMatchAt0 SOA_LINE_RE line).isSome then none
    else
      match reMatchAt0 ORIGIN_RE line with
      | some caps => some ((capSlice line caps 1).map Char.toLower)
      | none => get_zone_origin rest

/-- Errors of the source raised as `HookException` (plus the two Python
runtime errors `build` can hit); the payloads are the offending file names
the exception carries. -/
inductive HookErr where
  | originDiffers (origin : List Char) (fname : List Char)
  | compileFailure (fname : List Char)
  | serialNotIncreased (fname : List Char)
  deriving Repr, DecidableEq

/-- The deleted-characters set of `get_zone_name`:
`str.maketrans("", "", "/_,:-+*%^&#$")`. -/
def fancyChars : List Char := "/_,:-+*%^&#$".toList

/-- Python `s.translate(tt)` for the deletion table above. -/
def stripFancy (s : List Char) : List Char :=
  s.filter fun c => ¬ c ∈ fancyChars

/-- Embedding of `get_zone_name(path, zonedata)`.  `allowFancy` models the
external lookup `get_config("dzonegit.allowfancynames", bool)`. -/
def get_zone_name (path : List Char) (zonedata : List (List Char))
    (allowFancy : Bool) : Except HookErr (List Char) :=
  let stemname := (stemOf path).map Char.toLower
  match get_zone_origin zonedata with
  | some originname =>
    if stripFancy stemname ≠ stripFancy originname ∧ ¬allowFancy then
      .error (.originDiffers originname path)
    else .ok originname
  | none => .ok stemname

/-- Transliteration of the pattern built by `replace_serial`:
`(^.*\sSOA\s.+?\s){oldserial}([^0-9])` with
`re.DOTALL | re.IGNORECASE | re.MULTILINE`; `oldserial` is interpolated as a
literal (it is a decimal serial, so it contains no metacharacters). -/
def REPLACE_SERIAL_RE (oldserial : List Char) : RE :=
  .seq
    (.grp 1 (.seq .bol (.seq (.starG .any) (.seq (.cls .space)
      (.seq (.lit "SOA".toList) (.seq (.cls .space)
        (.seq (.plusL .any) (.cls .space))))))))
    (.seq (.lit oldserial) (.grp 2 (.cls .nonDigit)))

/-- Embedding of `replace_serial(path, oldserial, newserial)`: substitute
with `count=1` and replacement `\g<1>{newserial}\g<2>`; when no substitution
happens return `False` without writing.  The file is modelled by its
contents: the returned string is what the file holds afterwards. -/
def replace_serial (contents oldserial newserial : List Char) :
    Bool × List Char :=
  match reScanFrom contents (REPLACE_SERIAL_RE oldserial) 0 contents with
  | none => (false, contents)
  | some (b, e, caps) =>
    (true,
      contents.take b ++ capSlice contents caps 1 ++ newserial ++
        capSlice contents caps 2 ++ contents.drop e)

/-!
The `build` command (`main` loads the persisted state, then `build` walks
the zone catalog, updates serials, and materializes built files plus the
rendered configuration).  External collaborators are parameters: the zone
directory listing, the git change set, the file contents, and the rendered
Jinja template.
-/

/-- The `State` dataclass of the source: last-deployed commit id and the
per-zone serial map (a Python dict, modelled as an insertion-ordered
association list). -/
structure StateRec where
  commit : List Char
  serials : List (List Char × Int)
  deriving Repr, DecidableEq

/-- Python runtime errors reachable in `build`. -/
inductive PyErr where
  | attributeError
  | keyError
  deriving Repr, DecidableEq

/-- Dict lookup `d.get(k)` on an insertion-ordered association list. -/
def dictGet (m : List (List Char × Int)) (k : List Char) : Option Int :=
  (m.find? fun p => p.1 = k).map fun p => p.2

/-- Dict store `d[k] = v`: overwrite in place (keeping the position) or
append. -/
def dictSet (m : List (List Char × Int)) (k : List Char) (v : Int) :
    List (List Char × Int) :=
  if (m.find? fun p => p.1 = k).isSome then
    m.map fun p => if p.1 = k then (k, v) else p
  else m ++ [(k, v)]

/-- `State.update_serial(zone)`:
`serials[zone] = get_increased_serial(serials.get(zone, 2000010100))`, with
the clock readings explicit. -/
def update_serial (serials : List (List Char × Int)) (z : List Char)
    (now todayserial : Int) : List (List Char × Int) :=
  dictSet serials z
    (get_increased_serial ((dictGet serials z).getD 2000010100) now todayserial)

/-- Dict store for the zone catalog (`all_zones` dict comprehension). -/
def dictUpsert (m : List (List Char × List Char)) (k v : List Char) :
    List (List Char × List Char) :=
  if (m.find? fun p => p.1 = k).isSome then
    m.map fun p => if p.1 = k then (k, v) else p
  else m ++ [(k, v)]

/-- The `all_zones` dict of `build`:
`{zone(zone_file): zone_file for zone_file in ctxobj.list_zones()}` where
`zone(...)` is `Path(zone_file).with_suffix("").name`. -/
def allZonesMap (zoneFiles : List (List Char)) :
    List (List Char × List Char) :=
  zoneFiles.foldl (fun m zf => dictUpsert m (stemOf zf) zf) []

/-- The command-line options and clock readings `build` consumes. -/
structure BuildArgs where
  buildSubdir : List Char
  confTemplate : List Char
  allZones : Bool
  now : Int
  todayserial : Int

/-- Path of the rendered configuration:
`Path(build_subdir).joinpath(Path(conf_template).with_suffix(""))`. -/
def confOutPath (args : BuildArgs) : List Char :=
  pathJoin args.buildSubdir (stemOf args.confTemplate)

/-- The body of `generate(ctxobj, zone, zone_file)`: look up the serial
(`ctxobj.state.serials[zone]`, a `KeyError` if absent), substitute it via
`SERIAL_RE.subn`, and write to `build_subdir/basename(zone_file)`.  Returns
the (path, content) pair written. -/
def generateZone (args : BuildArgs) (serials : List (List Char × Int))
    (z zf text : List Char) : Except PyErr (List Char × List Char) :=
  match dictGet serials z with
  | none => .error .keyError
  | some serial =>
    .ok (pathJoin args.buildSubdir (basenameOf zf),
      (serialSubn text (toString serial).toList).1)

/-- The per-zone loop of `build`.  `serials?` is `ctxobj.state.serials`
guarded by the fact that `ctxobj.state` may be `None` (state file absent):
the loop condition `zf in changed_zone_files or z not in
ctxobj.state.serials or ctxobj.all_zones` and the subsequent
`ctxobj.state.update_serial(z)` / `generate(...)` all dereference
`ctxobj.state`, so any iteration with `serials? = none` raises
`AttributeError`. -/
def buildLoop (args : BuildArgs) (changed : List (List Char))
    (contents : List Char → List Char) :
    List (List Char × List Char) → Option (List (List Char × Int)) →
    List (List Char × List Char) →
    Except PyErr (Option (List (List Char × Int)) × List (List Char × List Char))
  | [], serials?, writes => .ok (serials?, writes)
  | (z, zf) :: rest, serials?, writes =>
    match serials? with
    | none => .error .attributeError
    | some serials =>
      let serials2 :=
        if zf ∈ changed ∨ (dictGet serials z).isNone ∨ args.allZones then
          update_serial serials z args.now args.todayserial
        else serials
      match generateZone args serials2 z zf (contents zf) with
      | .error e => .error e
      | .ok w => buildLoop args changed contents rest (some serials2) (writes ++ [w])

/-- Embedding of the `build` command: `state` is the result of `main`
loading `ZONES_DEPLOY_STATE` (absent file caught as `OSError`, leaving
`None`); `zoneFiles` is the glob listing, `changed` the git change set,
`contents` the zone file reader, and `renderedConf` the rendered Jinja
template.  Returns the final in-memory state and the ordered list of
`(path, content)` file writes. -/
def buildRun (args : BuildArgs) (state : Option StateRec)
    (zoneFiles changed : List (List Char))
    (contents : List Char → List Char) (renderedConf : List Char) :
    Except PyErr (Option StateRec × List (List Char × List Char)) :=
  match buildLoop args changed contents (allZonesMap zoneFiles)
      ((state.map fun st => st.serials)) [] with
  | .error e => .error e
  | .ok (serials2, writes) =>
    .ok (match state, serials2 with
         | some st, some s2 => some ⟨st.commit, s2⟩
         | _, _ => state,
      writes ++ [(confOutPath args, renderedConf)])

/-- The deployed-state file name, `ZONES_DEPLOY_STATE` in the source. -/
def ZONES_DEPLOY_STATE : List Char := "zones_deploy.json".toList

/-!
The `check_updated_zones` hook phase and the `post_receive` reload logic.
-/

/-- Pass/fail result of the external `named-compilezone` run
(`compile_zone`); the diagnostic text is dropped, the hash abstracted. -/
structure CompileResults where
  success : Bool
  serial : Int
  zonehash : Int
  deriving Repr, DecidableEq

/-- One entry of `get_altered_files(against, "AMCR", revision)` together
with the file contents in the new revision and (optionally) in the old one;
`oldData = none` models the `subprocess.CalledProcessError` swallowed when
the old version of the zone did not exist. -/
structure AlteredFile where
  path : List Char
  newData : List (List Char)
  oldData : Option (List (List Char))
  deriving Repr, DecidableEq

/-- The per-file body of `check_updated_zones` (with the default
`autoupdate_serial=False`; that branch only rewords the exception message
and attempts an in-place serial rewrite before raising, leaving the control
flow identical).  `compile` is the external compiler collaborator, keyed by
zone name, zone data and the unixtime passed.  Returns the exception
raised, if any. -/
def checkZoneFile (compile : List Char → List (List Char) → Int → CompileResults)
    (allowFancy : Bool) (unixtime : Int) (f : AlteredFile) : Option HookErr :=
  match get_zone_name f.path f.newData allowFancy with
  | .error e => some e
  | .ok zname =>
    let rnew := compile zname f.newData unixtime
    if rnew.success = false then some (.compileFailure f.path)
    else
      match f.oldData with
      | none => none
      | some oldData =>
        match get_zone_name f.path oldData allowFancy with
        | .error e => some e
        | .ok zname2 =>
          let rold := compile zname2 oldData (unixtime - 1)
          if rold.success = true ∧ rold.zonehash ≠ rnew.zonehash ∧
              is_serial_increased rold.serial rnew.serial = false then
            some (.serialNotIncreased f.path)
          else none

/-- Embedding of `check_updated_zones`: walk the altered files in order,
skip non-`.zone` files, and raise (abort) at the first per-file exception.
Returns the files actually reported as checked (the "Checking file" prints)
and the exception that ended the run, if any. -/
def check_updated_zones
    (compile : List Char → List (List Char) → Int → CompileResults)
    (allowFancy : Bool) (unixtime : Int) :
    List AlteredFile → List (List Char) × Option HookErr
  | [] => ([], none)
  | f :: rest =>
    if suffixOf f.path ≠ ".zone".toList then
      check_updated_zones compile allowFancy unixtime rest
    else
      match checkZoneFile compile allowFancy unixtime f with
      | some e => ([f.path], some e)
      | none =>
        let r := check_updated_zones compile allowFancy unixtime rest
        (f.path :: r.1, r.2)

/-- Reload commands issued by `post_receive` for one pushed ref. -/
inductive DeployEvent where
  | reconfig (cmd : List Char)
  | reload (cmd : List Char) (z : List Char)
  deriving Repr, DecidableEq

/-- The `zones_to_reload` list comprehension of `post_receive`:
`get_zone_name(f, (checkoutpath / f).read_bytes())` over the
modified-filter (`"M"`) altered files with suffix `.zone`; `get_zone_name`
may raise, aborting the hook. -/
def zonesToReload (alteredM : List (List Char))
    (contents : List Char → List (List Char)) (allowFancy : Bool) :
    Except HookErr (List (List Char)) :=
  (alteredM.filter fun f => suffixOf f = ".zone".toList).mapM
    fun f => get_zone_name f (contents f) allowFancy

/-- The reload/reconfigure decision of `post_receive` for one stdin line:
`should_reconfig` is the `"ACDRU"`-filtered zone files, the reconfigure
commands run when it is nonempty, and the per-zone reload commands run for
every zone of `zones_to_reload` regardless.  `reconfigcmds` / `reloadcmds`
are the configured `dzonegit.reconfigcmdN` / `dzonegit.zonereloadcmdN`
values in suffix order. -/
def postReceiveLine (alteredACDRU alteredM : List (List Char))
    (contents : List Char → List (List Char)) (allowFancy : Bool)
    (reconfigcmds reloadcmds : List (List Char)) :
    Except HookErr (List DeployEvent) :=
  let shouldReconfig := alteredACDRU.filter fun f => suffixOf f = ".zone".toList
  match zonesToReload alteredM contents allowFancy with
  | .error e => .error e
  | .ok zs =>
    .ok ((if shouldReconfig = [] then [] else reconfigcmds.map .reconfig) ++
      zs.flatMap fun z => reloadcmds.map fun c => .reload c z)

/-!
Theorems for the claims about `generate` (C8), `get_zone_name` (C9) and
`replace_serial` (C10).
-/

/-!
Metatheory of the regex engine, used to prove that the `SERIAL_RE`
substitution of `generate` replaces at most one placeholder in any input:
the greedy `.*` of the pattern binds the last tail occurrence, so after the
first (and only) replacement the resumed scan finds nothing.
-/

theorem orElse_eq_none_iff {γ : Type} (x y : Option γ) :
    (x <|> y) = none ↔ x = none ∧ y = none := by
  cases x <;> simp

theorem orElse_eq_some_cases {γ : Type} (x y : Option γ) (r : γ)
    (h : (x <|> y) = some r) : x = some r ∨ (x = none ∧ y = some r) := by
  cases x with
  | none => right; exact ⟨rfl, h⟩
  | some a => left; exact h

theorem orElse_isSome {γ : Type} (x y : Option γ) :
    (x <|> y).isSome = (x.isSome || y.isSome) := by
  cases x <;> rfl

/-- Whether `starGreedy` succeeds depends on its continuation only through
the success of the continuation. -/
theorem starGreedy_isSome_congr {γ δ : Type} (p : Char → Bool) :
    ∀ (pos : Nat) (s : List Char) (K : Nat → List Char → Option γ)
      (K2 : Nat → List Char → Option δ),
      (∀ j sj, (K j sj).isSome = (K2 j sj).isSome) →
      (starGreedy p pos s K).isSome = (starGreedy p pos s K2).isSome
  | pos, [], K, K2, h => h pos []
  | pos, c :: rest, K, K2, h => by
    unfold starGreedy
    split_ifs with hc
    · rw [orElse_isSome, orElse_isSome,
        starGreedy_isSome_congr p (pos + 1) rest K K2 h, h pos (c :: rest)]
    · exact h pos (c :: rest)

/-- Whether `starLazy` succeeds depends on its continuation only through
the success of the continuation. -/
theorem starLazy_isSome_congr {γ δ : Type} (p : Char → Bool) :
    ∀ (pos : Nat) (s : List Char) (K : Nat → List Char → Option γ)
      (K2 : Nat → List Char → Option δ),
      (∀ j sj, (K j sj).isSome = (K2 j sj).isSome) →
      (starLazy p pos s K).isSome = (starLazy p pos s K2).isSome
  | pos, [], K, K2, h => h pos []
  | pos, c :: rest, K, K2, h => by
    unfold starLazy
    rw [orElse_isSome, orElse_isSome, h pos (c :: rest)]
    split_ifs with hc
    · rw [starLazy_isSome_congr p (pos + 1) rest K K2 h]
    · rfl

/-- Whether the matcher succeeds is independent of the capture accumulator
and depends on the continuation only through its success: the engine
threads `caps` without ever inspecting it. -/
theorem reMatch_isSome_congr {γ δ : Type} (subject : List Char) :
    ∀ (re : RE) (pos : Nat) (s : List Char) (caps caps2 : Caps)
      (k : Nat → List Char → Caps → Option γ)
      (k2 : Nat → List Char → Caps → Option δ),
      (∀ p2 s2 c2 c3, (k p2 s2 c2).isSome = (k2 p2 s2 c3).isSome) →
      (reMatch subject re pos s caps k).isSome
        = (reMatch subject re pos s caps2 k2).isSome
  | .eps, pos, s, caps, caps2, k, k2, h => h pos s caps caps2
  | .cls c, pos, s, caps, caps2, k, k2, h => by
    unfold reMatch
    cases s with
    | nil => rfl
    | cons ch rest =>
      dsimp only
      split_ifs with hc
      · exact h (pos + 1) rest caps caps2
      · rfl
  | .lit l, pos, s, caps, caps2, k, k2, h => by
    unfold reMatch
    cases hl : litMatch l pos s with
    | none => rfl
    | some r => exact h r.1 r.2 caps caps2
  | .seq a b, pos, s, caps, caps2, k, k2, h => by
    unfold reMatch
    exact reMatch_isSome_congr subject a pos s caps caps2 _ _
      (fun p2 s2 c2 c3 => reMatch_isSome_congr subject b p2 s2 c2 c3 k k2 h)
  | .opt a, pos, s, caps, caps2, k, k2, h => by
    unfold reMatch
    rw [orElse_isSome, orElse_isSome,
      reMatch_isSome_congr subject a pos s caps caps2 k k2 h,
      h pos s caps caps2]
  | .starG c, pos, s, caps, caps2, k, k2, h => by
    unfold reMatch
    exact starGreedy_isSome_congr c.test pos s _ _
      (fun j sj => h j sj caps caps2)
  | .plusG c, pos, s, caps, caps2, k, k2, h => by
    unfold reMatch
    cases s with
    | nil => rfl
    | cons ch rest =>
      dsimp only
      split_ifs with hc
      · exact starGreedy_isSome_congr c.test (pos + 1) rest _ _
          (fun j sj => h j sj caps caps2)
      · rfl
  | .plusL c, pos, s, caps, caps2, k, k2, h => by
    unfold reMatch
    cases s with
    | nil => rfl
    | cons ch rest =>
      dsimp only
      split_ifs with hc
      · exact starLazy_isSome_congr c.test (pos + 1) rest _ _
          (fun j sj => h j sj caps caps2)
      · rfl
  | .grp i a, pos, s, caps, caps2, k, k2, h => by
    unfold reMatch
    exact reMatch_isSome_congr subject a pos s caps caps2 _ _
      (fun p2 s2 c2 c3 => h p2 s2 ((i, pos, p2) :: c2) ((i, pos, p2) :: c3))
  | .bol, pos, s, caps, caps2, k, k2, h => by
    unfold reMatch
    split_ifs with hb
    · exact h pos s caps caps2
    · rfl
  | .eol, pos, s, caps, caps2, k, k2, h => by
    unfold reMatch
    cases s with
    | nil => exact h pos [] caps caps2
    | cons ch rest => rfl

/-- A successful case-insensitive literal match only moves the position
forward. -/
theorem litMatch_le :
    ∀ (l : List Char) (pos : Nat) (s : List Char) (r : Nat × List Char),
      litMatch l pos s = some r → pos ≤ r.1
  | [], pos, s, r, h => by
    unfold litMatch at h
    cases h
    exact Nat.le_refl pos
  | _ :: _, _, [], r, h => by cases h
  | l :: ls, pos, c :: s, r, h => by
    unfold litMatch at h
    split_ifs at h with hc
    exact Nat.le_trans (Nat.le_succ pos) (litMatch_le ls (pos + 1) s r h)

/-- A successful `starGreedy` run invokes its continuation at some position
at or after the start. -/
theorem starGreedy_some_exists {γ : Type} (p : Char → Bool) :
    ∀ (pos : Nat) (s : List Char) (K : Nat → List Char → Option γ) (r : γ),
      starGreedy p pos s K = some r → ∃ j sj, pos ≤ j ∧ K j sj = some r
  | pos, [], K, r, h => ⟨pos, [], Nat.le_refl pos, h⟩
  | pos, c :: rest, K, r, h => by
    unfold starGreedy at h
    split_ifs at h with hc
    · rcases orElse_eq_some_cases _ _ _ h with h2 | h2
      · obtain ⟨j, sj, hj, hK⟩ :=
          starGreedy_some_exists p (pos + 1) rest K r h2
        exact ⟨j, sj, Nat.le_trans (Nat.le_succ pos) hj, hK⟩
      · exact ⟨pos, c :: rest, Nat.le_refl pos, h2.2⟩
    · exact ⟨pos, c :: rest, Nat.le_refl pos, h⟩

/-- A successful `starLazy` run invokes its continuation at some position
at or after the start. -/
theorem starLazy_some_exists {γ : Type} (p : Char → Bool) :
    ∀ (pos : Nat) (s : List Char) (K : Nat → List Char → Option γ) (r : γ),
      starLazy p pos s K = some r → ∃ j sj, pos ≤ j ∧ K j sj = some r
  | pos, [], K, r, h => ⟨pos, [], Nat.le_refl pos, h⟩
  | pos, c :: rest, K, r, h => by
    unfold starLazy at h
    rcases orElse_eq_some_cases _ _ _ h with h2 | h2
    · exact ⟨pos, c :: rest, Nat.le_refl pos, h2⟩
    · have h3 := h2.2
      split_ifs at h3 with hc
      obtain ⟨j, sj, hj, hK⟩ :=
        starLazy_some_exists p (pos + 1) rest K r h3
      exact ⟨j, sj, Nat.le_trans (Nat.le_succ pos) hj, hK⟩

/-- A successful match invokes its continuation at some position at or
after the start (the engine never moves backwards). -/
theorem reMatch_some_exists {γ : Type} (subject : List Char) :
    ∀ (re : RE) (pos : Nat) (s : List Char) (caps : Caps)
      (k : Nat → List Char → Caps → Option γ) (r : γ),
      reMatch subject re pos s caps k = some r →
      ∃ p2 s2 c2, pos ≤ p2 ∧ k p2 s2 c2 = some r
  | .eps, pos, s, caps, k, r, h => ⟨pos, s, caps, Nat.le_refl pos, h⟩
  | .cls c, pos, s, caps, k, r, h => by
    unfold reMatch at h
    cases s with
    | nil => cases h
    | cons ch rest =>
      dsimp only at h
      split_ifs at h with hc
      exact ⟨pos + 1, rest, caps, Nat.le_succ pos, h⟩
  | .lit l, pos, s, caps, k, r, h => by
    unfold reMatch at h
    cases hl : litMatch l pos s with
    | none => rw [hl] at h; cases h
    | some q =>
      rw [hl] at h
      exact ⟨q.1, q.2, caps, litMatch_le l pos s q hl, h⟩
  | .seq a b, pos, s, caps, k, r, h => by
    unfold reMatch at h
    obtain ⟨p2, s2, c2, hp2, h2⟩ := reMatch_some_exists subject a pos s caps _ r h
    obtain ⟨p3, s3, c3, hp3, h3⟩ :=
      reMatch_some_exists subject b p2 s2 c2 k r h2
    exact ⟨p3, s3, c3, Nat.le_trans hp2 hp3, h3⟩
  | .opt a, pos, s, caps, k, r, h => by
    unfold reMatch at h
    rcases orElse_eq_some_cases _ _ _ h with h2 | h2
    · exact reMatch_some_exists subject a pos s caps k r h2
    · exact ⟨pos, s, caps, Nat.le_refl pos, h2.2⟩
  | .starG c, pos, s, caps, k, r, h => by
    unfold reMatch at h
    obtain ⟨j, sj, hj, hK⟩ := starGreedy_some_exists c.test pos s _ r h
    exact ⟨j, sj, caps, hj, hK⟩
  | .plusG c, pos, s, caps, k, r, h => by
    unfold reMatch at h
    cases s with
    | nil => cases h
    | cons ch rest =>
      dsimp only at h
      split_ifs at h with hc
      obtain ⟨j, sj, hj, hK⟩ := starGreedy_some_exists c.test (pos + 1) rest _ r h
      exact ⟨j, sj, caps, Nat.le_trans (Nat.le_succ pos) hj, hK⟩
  | .plusL c, pos, s, caps, k, r, h => by
    unfold reMatch at h
    cases s with
    | nil => cases h
    | cons ch rest =>
      dsimp only at h
      split_ifs at h with hc
      obtain ⟨j, sj, hj, hK⟩ := starLazy_some_exists c.test (pos + 1) rest _ r h
      exact ⟨j, sj, caps, Nat.le_trans (Nat.le_succ pos) hj, hK⟩
  | .grp i a, pos, s, caps, k, r, h => by
    unfold reMatch at h
    obtain ⟨p2, s2, c2, hp2, h2⟩ := reMatch_some_exists subject a pos s caps _ r h
    exact ⟨p2, s2, (i, pos, p2) :: c2, hp2, h2⟩
  | .bol, pos, s, caps, k, r, h => by
    unfold reMatch at h
    split_ifs at h with hb
    exact ⟨pos, s, caps, Nat.le_refl pos, h⟩
  | .eol, pos, s, caps, k, r, h => by
    unfold reMatch at h
    cases s with
    | nil => exact ⟨pos, [], caps, Nat.le_refl pos, h⟩
    | cons ch rest => cases h


/-- One-step unfolding of the scan loop at the end of the input. -/
theorem reScanFrom_nil (subject : List Char) (re : RE) (pos : Nat) :
    reScanFrom subject re pos []
      = match reMatch subject re pos [] [] (fun p2 _ c2 => some (p2, c2)) with
        | some (e, caps) => some (pos, e, caps)
        | none => none := rfl

/-- One-step unfolding of the scan loop: try the current position, else
advance by one character. -/
theorem reScanFrom_cons (subject : List Char) (re : RE) (pos : Nat)
    (c : Char) (rest : List Char) :
    reScanFrom subject re pos (c :: rest)
      = match reMatch subject re pos (c :: rest) []
            (fun p2 _ c2 => some (p2, c2)) with
        | some (e, caps) => some (pos, e, caps)
        | none => reScanFrom subject re (pos + 1) rest := rfl

/-- `starGreedy` over the always-true class steps by one character. -/
theorem starGreedy_any_cons {γ : Type} (K : Nat → List Char → Option γ)
    (pos : Nat) (c : Char) (rest : List Char) :
    starGreedy CClass.any.test pos (c :: rest) K
      = ((starGreedy CClass.any.test (pos + 1) rest K) <|>
          K pos (c :: rest)) := rfl

/-- A failing greedy `.*` means the tail fails at every start position of
the remaining input. -/
theorem starGreedy_any_none_eval {γ : Type} (K : Nat → List Char → Option γ) :
    ∀ (s : List Char) (pos : Nat),
      starGreedy CClass.any.test pos s K = none →
      ∀ i, pos ≤ i → i ≤ pos + s.length → K i (s.drop (i - pos)) = none := by
  intro s
  induction s with
  | nil =>
    intro pos h i h1 h2
    simp only [List.length_nil, Nat.add_zero] at h2
    have h3 : i = pos := Nat.le_antisymm h2 h1
    subst h3
    simpa [starGreedy] using h
  | cons c rest ih =>
    intro pos h i h1 h2
    rw [starGreedy_any_cons, orElse_eq_none_iff] at h
    rcases Nat.eq_or_lt_of_le h1 with h3 | h3
    · rw [← h3]
      simpa using h.2
    · have h4 := ih (pos + 1) h.1 i h3
        (by rw [List.length_cons] at h2; omega)
      have hd : (c :: rest).drop (i - pos) = rest.drop (i - (pos + 1)) := by
        have h5 : i - pos = (i - (pos + 1)) + 1 := by omega
        rw [h5]
        rfl
      rw [hd]
      exact h4

/-- Converse: if the tail fails at every start position, the greedy `.*`
fails. -/
theorem starGreedy_any_none_intro {γ : Type} (K : Nat → List Char → Option γ) :
    ∀ (s : List Char) (pos : Nat),
      (∀ i, pos ≤ i → i ≤ pos + s.length → K i (s.drop (i - pos)) = none) →
      starGreedy CClass.any.test pos s K = none := by
  intro s
  induction s with
  | nil =>
    intro pos h
    have h0 := h pos (Nat.le_refl pos) (by simp)
    simpa [starGreedy] using h0
  | cons c rest ih =>
    intro pos h
    rw [starGreedy_any_cons, orElse_eq_none_iff]
    constructor
    · apply ih (pos + 1)
      intro i h1 h2
      have h0 := h i (by omega) (by rw [List.length_cons]; omega)
      have hd : (c :: rest).drop (i - pos) = rest.drop (i - (pos + 1)) := by
        have h5 : i - pos = (i - (pos + 1)) + 1 := by omega
        rw [h5]
        rfl
      rw [hd] at h0
      exact h0
    · have h0 := h pos (Nat.le_refl pos) (by omega)
      simpa using h0

/-- A successful greedy `.*` picks the last position at which the tail
succeeds: the tail fails strictly beyond the chosen position. -/
theorem starGreedy_any_some_eval {γ : Type} (K : Nat → List Char → Option γ) :
    ∀ (s : List Char) (pos : Nat) (r : γ),
      starGreedy CClass.any.test pos s K = some r →
      ∃ j, pos ≤ j ∧ K j (s.drop (j - pos)) = some r ∧
        ∀ i, j < i → i ≤ pos + s.length → K i (s.drop (i - pos)) = none := by
  intro s
  induction s with
  | nil =>
    intro pos r h
    refine ⟨pos, Nat.le_refl pos, by simpa [starGreedy] using h, ?_⟩
    intro i h1 h2
    simp only [List.length_nil, Nat.add_zero] at h2
    omega
  | cons c rest ih =>
    intro pos r h
    rw [starGreedy_any_cons] at h
    rcases orElse_eq_some_cases _ _ _ h with h2 | h2
    · obtain ⟨j, hj1, hj2, hj3⟩ := ih (pos + 1) r h2
      refine ⟨j, by omega, ?_, ?_⟩
      · have hd : (c :: rest).drop (j - pos) = rest.drop (j - (pos + 1)) := by
          have h5 : j - pos = (j - (pos + 1)) + 1 := by omega
          rw [h5]
          rfl
        rw [hd]
        exact hj2
      · intro i h1 h3
        have hd : (c :: rest).drop (i - pos) = rest.drop (i - (pos + 1)) := by
          have h5 : i - pos = (i - (pos + 1)) + 1 := by omega
          rw [h5]
          rfl
        rw [hd]
        exact hj3 i h1 (by rw [List.length_cons] at h3; omega)
    · refine ⟨pos, Nat.le_refl pos, by simpa using h2.2, ?_⟩
      intro i h1 h3
      have h4 := starGreedy_any_none_eval K rest (pos + 1) h2.1 i (by omega)
        (by rw [List.length_cons] at h3; omega)
      have hd : (c :: rest).drop (i - pos) = rest.drop (i - (pos + 1)) := by
        have h5 : i - pos = (i - (pos + 1)) + 1 := by omega
        rw [h5]
        rfl
      rw [hd]
      exact h4

/-- A successful scan yields a genuine match of the pattern at the reported
start position (which is at or after the scan start). -/
theorem reScanFrom_some_spec (subject : List Char) (re : RE) :
    ∀ (s : List Char) (pos b e : Nat) (caps : Caps),
      s = subject.drop pos →
      reScanFrom subject re pos s = some (b, e, caps) →
      pos ≤ b ∧ reMatch subject re b (subject.drop b) []
          (fun p2 _ c2 => some (p2, c2)) = some (e, caps) := by
  intro s
  induction s with
  | nil =>
    intro pos b e caps hs h
    rw [reScanFrom_nil] at h
    cases hm : reMatch subject re pos ([] : List Char) []
        (fun p2 _ c2 => some (p2, c2)) with
    | some q =>
      obtain ⟨e2, caps2⟩ := q
      rw [hm] at h
      cases h
      exact ⟨Nat.le_refl pos, by rw [← hs]; exact hm⟩
    | none => rw [hm] at h; cases h
  | cons c rest ih =>
    intro pos b e caps hs h
    rw [reScanFrom_cons] at h
    cases hm : reMatch subject re pos (c :: rest) []
        (fun p2 _ c2 => some (p2, c2)) with
    | some q =>
      obtain ⟨e2, caps2⟩ := q
      rw [hm] at h
      cases h
      exact ⟨Nat.le_refl pos, by rw [← hs]; exact hm⟩
    | none =>
      rw [hm] at h
      have hrest : rest = subject.drop (pos + 1) := by
        have h2 := congrArg List.tail hs
        simpa [List.tail_drop] using h2
      obtain ⟨hb, hre⟩ := ih (pos + 1) b e caps hrest h
      exact ⟨by omega, hre⟩

/-- If the pattern fails at every position at or after the scan start, the
scan fails. -/
theorem reScanFrom_none_intro (subject : List Char) (re : RE) :
    ∀ (s : List Char) (pos : Nat),
      s = subject.drop pos →
      (∀ j, pos ≤ j → reMatch subject re j (subject.drop j) []
          (fun p2 _ c2 => some (p2, c2)) = none) →
      reScanFrom subject re pos s = none := by
  intro s
  induction s with
  | nil =>
    intro pos hs h
    have h0 := h pos (Nat.le_refl pos)
    rw [← hs] at h0
    rw [reScanFrom_nil, h0]
  | cons c rest ih =>
    intro pos hs h
    have h0 := h pos (Nat.le_refl pos)
    rw [← hs] at h0
    rw [reScanFrom_cons, h0]
    exact ih (pos + 1)
      (by
        have h2 := congrArg List.tail hs
        simpa [List.tail_drop] using h2)
      (fun j hj => h j (by omega))

/-- When the scan finds nothing, `subnAux` copies its input and count. -/
theorem subnAux_of_scan_none (subject : List Char) (re : RE)
    (repl : Caps → List Char) (fuel pos : Nat) (s : List Char) (count : Nat)
    (h : reScanFrom subject re pos s = none) :
    subnAux subject re repl fuel pos s count = (s, count) := by
  cases fuel with
  | zero => rfl
  | succ n =>
    unfold subnAux
    rw [h]

/-- Unfolding of the matcher on `SERIAL_RE`: the `^` anchor test followed by
the greedy `.*` handing the pattern tail to each candidate position. -/
theorem reMatch_SERIAL_RE (subject : List Char) (pos : Nat) (s : List Char) :
    reMatch subject SERIAL_RE pos s [] (fun p2 _ c2 => some (p2, c2))
      = if pos = 0 ∨ subject.get? (pos - 1) = some '\n' then
          starGreedy CClass.any.test pos s (serialTailCont subject pos)
        else none := rfl

/-- The tail of `SERIAL_RE` needs at least one character. -/
theorem serialTailCont_nil (subject : List Char) (g j : Nat) :
    serialTailCont subject g j [] = none := rfl

/-- Whether the tail matches does not depend on the recorded group start. -/
theorem serialTailCont_isSome_congr (subject : List Char) (g g2 j : Nat)
    (sj : List Char) :
    (serialTailCont subject g j sj).isSome
      = (serialTailCont subject g2 j sj).isSome := by
  unfold serialTailCont
  exact reMatch_isSome_congr subject SERIAL_TAIL1 j sj [] [] _ _
    (fun p2 s2 c2 c3 =>
      reMatch_isSome_congr subject SERIAL_TAIL2 p2 s2 ((1, g, p2) :: c2)
        ((1, g2, p2) :: c3) _ _ (fun p3 s3 c4 c5 => rfl))

/-- A match of a pattern starting with a single-character class hands its
continuation a strictly later position. -/
theorem reMatch_seq_cls_some_exists {γ : Type} (subject : List Char)
    (c : CClass) (b : RE) (pos : Nat) (s : List Char) (caps : Caps)
    (k : Nat → List Char → Caps → Option γ) (r : γ)
    (h : reMatch subject (.seq (.cls c) b) pos s caps k = some r) :
    ∃ p2 s2 c2, pos + 1 ≤ p2 ∧ k p2 s2 c2 = some r := by
  cases s with
  | nil =>
    unfold reMatch at h
    unfold reMatch at h
    exact Option.noConfusion h
  | cons ch rest =>
    unfold reMatch at h
    unfold reMatch at h
    dsimp only at h
    split_ifs at h with hc
    obtain ⟨p2, s2, c2, hp2, h2⟩ :=
      reMatch_some_exists subject b (pos + 1) rest caps k r h
    exact ⟨p2, s2, c2, hp2, h2⟩

/-- A successful tail match of `SERIAL_RE` ends strictly after the position
it was tried at (the tail starts with a mandatory `\s`). -/
theorem serialTailCont_some_lt (subject : List Char) (g j : Nat)
    (sj : List Char) (e : Nat) (caps : Caps)
    (h : serialTailCont subject g j sj = some (e, caps)) : j < e := by
  unfold serialTailCont SERIAL_TAIL1 at h
  obtain ⟨p2, s2, c2, hp2, h2⟩ :=
    reMatch_seq_cls_some_exists subject _ _ j sj [] _ _ h
  obtain ⟨p3, s3, c3, hp3, h3⟩ :=
    reMatch_some_exists subject SERIAL_TAIL2 p2 s2 _ _ _ h2
  have h4 : p3 = e := by
    injection h3 with h5
    exact congrArg Prod.fst h5
  omega

/-- The substitution count of `subnAux` never decreases below its
accumulator: any found match contributes at least one substitution. -/
theorem subnAux_count_le (subject : List Char) (re : RE)
    (repl : Caps → List Char) :
    ∀ fuel pos s count, count ≤ (subnAux subject re repl fuel pos s count).2 := by
  intro fuel
  induction fuel with
  | zero => intro pos s count; simp [subnAux]
  | succ n ih =>
    intro pos s count
    simp only [subnAux]
    cases h : reScanFrom subject re pos s with
    | none => simp
    | some m =>
      obtain ⟨b, e, caps⟩ := m
      simp only
      split_ifs with hbe
      · exact le_trans (Nat.le_succ count) (ih e (s.drop (e - pos)) (count + 1))
      · cases hd : s.drop (b - pos) with
        | nil => simp
        | cons ch rest2 =>
          exact le_trans (Nat.le_succ count) (ih (b + 1) rest2 (count + 1))

/-- When `subn` reports zero substitutions the returned text is the input,
unchanged byte for byte. -/
theorem serialSubn_zero_verbatim (text serial : List Char)
    (h : (serialSubn text serial).2 = 0) :
    (serialSubn text serial).1 = text := by
  unfold serialSubn pySubn at h ⊢
  rw [show text.length + 1 = Nat.succ text.length from rfl] at h ⊢
  simp only [subnAux] at h ⊢
  cases hscan : reScanFrom text SERIAL_RE 0 text with
  | none => simp [hscan]
  | some m =>
    obtain ⟨b, e, caps⟩ := m
    rw [hscan] at h
    exfalso
    simp only [Nat.zero_add] at h
    split_ifs at h with hbe
    · simp only at h
      have := subnAux_count_le text SERIAL_RE
        (fun caps => capSlice text caps 1 ++ serial)
        text.length e (text.drop (e - 0)) 1
      omega
    · cases hd : text.drop (b - 0) with
      | nil => rw [hd] at h; simp at h
      | cons ch rest2 =>
        rw [hd] at h
        simp only at h
        have := subnAux_count_le text SERIAL_RE
          (fun caps => capSlice text caps 1 ++ serial)
          text.length (b + 1) rest2 1
        omega

/-- On every input, the `SERIAL_RE` substitution of `generate` replaces at
most one placeholder: the greedy `.*` binds the last position where the
pattern tail matches, so the scan resumed after the first replacement finds
nothing. -/
theorem serialSubn_count_le_one (text serial : List Char) :
    (serialSubn text serial).2 ≤ 1 := by
  unfold serialSubn pySubn
  rw [show text.length + 1 = Nat.succ text.length from rfl]
  simp only [subnAux]
  cases hscan : reScanFrom text SERIAL_RE 0 text with
  | none => simp
  | some m =>
    obtain ⟨b, e, caps⟩ := m
    simp only [Nat.zero_add]
    obtain ⟨hb0, hm⟩ := reScanFrom_some_spec text SERIAL_RE text 0 b e caps
      (by simp) hscan
    rw [reMatch_SERIAL_RE] at hm
    rcases Decidable.em (b = 0 ∨ text.get? (b - 1) = some '\n') with hbol | hbol
    · rw [if_pos hbol] at hm
      obtain ⟨j, hj1, hj2, hj3⟩ :=
        starGreedy_any_some_eval (serialTailCont text b) (text.drop b) b
          (e, caps) hm
      rw [show (text.drop b).drop (j - b) = text.drop j from by
        rw [List.drop_drop]; congr 1; omega] at hj2
      have hje : j < e := serialTailCont_some_lt text b j (text.drop j) e caps hj2
      have hble : b ≤ text.length := by
        by_contra hgt
        push_neg at hgt
        rw [List.drop_eq_nil_of_le (Nat.le_of_lt hgt)] at hm
        rw [show starGreedy CClass.any.test b [] (serialTailCont text b)
            = serialTailCont text b b [] from rfl] at hm
        rw [serialTailCont_nil] at hm
        cases hm
      have hfail : ∀ g i, e ≤ i →
          serialTailCont text g i (text.drop i) = none := by
        intro g i hi
        rcases Decidable.em (i ≤ text.length) with hilen | hilen
        · have h5 := hj3 i (by omega) (by rw [List.length_drop]; omega)
          rw [show (text.drop b).drop (i - b) = text.drop i from by
            rw [List.drop_drop]; congr 1; omega] at h5
          have h6 := serialTailCont_isSome_congr text b g i (text.drop i)
          rw [h5] at h6
          cases h7 : serialTailCont text g i (text.drop i) with
          | none => rfl
          | some q => rw [h7] at h6; simp at h6
        · push_neg at hilen
          rw [List.drop_eq_nil_of_le (Nat.le_of_lt hilen)]
          exact serialTailCont_nil text g i
      have hnone : reScanFrom text SERIAL_RE e (text.drop (e - 0)) = none := by
        apply reScanFrom_none_intro text SERIAL_RE (text.drop (e - 0)) e
          (by rw [Nat.sub_zero])
        intro p hp
        rw [reMatch_SERIAL_RE]
        split_ifs with hb2
        · apply starGreedy_any_none_intro
          intro i h1 h2
          rw [show (text.drop p).drop (i - p) = text.drop i from by
            rw [List.drop_drop]; congr 1; omega]
          exact hfail p i (by omega)
        · rfl
      split_ifs with hbe
      · rw [subnAux_of_scan_none text SERIAL_RE
          (fun caps => capSlice text caps 1 ++ serial) text.length e
          (text.drop (e - 0)) 1 hnone]
      · exact absurd (show b < e by omega) hbe
    · rw [if_neg hbol] at hm
      cases hm

/-- C8 counterexample: with two placeholder lines the substitution does not
rewrite the first occurrence — the first placeholder line stays verbatim
(the greedy `.*` of `SERIAL_RE` binds the serial of the last placeholder). -/
theorem generate_not_first_occurrence :
    (serialSubn
        "@ SOA a b 1 ;SERIALAUTOUPDATE\n@ SOA c d 1 ;SERIALAUTOUPDATE\n".toList
        "7".toList).1
      ≠ "@ SOA a b 7\n@ SOA c d 1 ;SERIALAUTOUPDATE\n".toList := by decide

/-- The "No serial placeholder found" warning of `generate` fires exactly
when `SERIAL_RE` has no match in the file. -/
theorem serialSubn_zero_iff (text serial : List Char) :
    (serialSubn text serial).2 = 0 ↔
      reScanFrom text SERIAL_RE 0 text = none := by
  constructor
  · intro h
    by_contra hne
    unfold serialSubn pySubn at h
    rw [show text.length + 1 = Nat.succ text.length from rfl] at h
    simp only [subnAux] at h
    cases hsc : reScanFrom text SERIAL_RE 0 text with
    | none => exact hne hsc
    | some m =>
      obtain ⟨b, e, caps⟩ := m
      rw [hsc] at h
      simp only [Nat.zero_add] at h
      split_ifs at h with hbe
      · simp only at h
        have := subnAux_count_le text SERIAL_RE
          (fun caps => capSlice text caps 1 ++ serial)
          text.length e (text.drop (e - 0)) 1
        omega
      · cases hd : text.drop (b - 0) with
        | nil => rw [hd] at h; simp at h
        | cons ch rest2 =>
          rw [hd] at h
          simp only at h
          have := subnAux_count_le text SERIAL_RE
            (fun caps => capSlice text caps 1 ++ serial)
            text.length (b + 1) rest2 1
          omega
  · intro h
    unfold serialSubn pySubn
    rw [subnAux_of_scan_none _ _ _ _ _ _ _ h]

/-- C8 (amended): for every zone source file, build substitutes the
assigned serial for at most one occurrence of the serial-auto-update
placeholder — exactly one when the pattern matches, and not necessarily at
the first occurrence: with two placeholder lines the first stays verbatim
and the last is rewritten.  When the pattern does not match, the non-fatal
warning is emitted (and only then), and the built file is written
byte-identical to the source. -/
theorem generate_placeholder_substitution :
    (∀ text serial : List Char, (serialSubn text serial).2 ≤ 1)
    ∧ (∀ text serial : List Char,
        ((generateResult text serial).2 = true ↔
          reScanFrom text SERIAL_RE 0 text = none))
    ∧ (∀ text serial : List Char, (generateResult text serial).2 = true →
        (generateResult text serial).1 = text)
    ∧ generateResult "@ SOA a b 1 ;SERIALAUTOUPDATE\n".toList "7".toList
        = ("@ SOA a b 7\n".toList, false)
    ∧ generateResult
        "@ SOA a b 1 ;SERIALAUTOUPDATE\n@ SOA c d 1 ;SERIALAUTOUPDATE\n".toList
        "7".toList
        = ("@ SOA a b 1 ;SERIALAUTOUPDATE\n@ SOA c d 7\n".toList, false)
    ∧ generateResult "no placeholder here".toList "7".toList
        = ("no placeholder here".toList, true) := by
  refine ⟨serialSubn_count_le_one, fun text serial => ?_,
    fun text serial h => ?_, by decide, by decide, by decide⟩
  · unfold generateResult
    simpa using serialSubn_zero_iff text serial
  · have h0 : (serialSubn text serial).2 = 0 := by
      have h1 := h
      unfold generateResult at h1
      simpa using h1
    unfold generateResult
    simpa using serialSubn_zero_verbatim text serial h0

/-- Witness for C8 (amended): the hypothesis-bearing verbatim arm applied at
a concrete placeholder-free file. -/
theorem generate_placeholder_substitution_witness :
    (generateResult "x".toList "7".toList).1 = "x".toList ∧
    (serialSubn "x".toList "7".toList).2 ≤ 1 :=
  ⟨generate_placeholder_substitution.2.2.1 "x".toList "7".toList (by decide),
   generate_placeholder_substitution.1 "x".toList "7".toList⟩

/-- C9: the canonical zone name is the lower-cased `$ORIGIN` name when one
appears before the SOA record, else the lower-cased filename stem; and the
data-validation error naming the file is raised exactly when an origin is
present, the two names differ after stripping the punctuation set, and the
allow-fancy-names flag is unset. -/
theorem get_zone_name_spec (path : List Char) (zonedata : List (List Char))
    (allowFancy : Bool) :
    (get_zone_origin zonedata = none →
      get_zone_name path zonedata allowFancy =
        .ok ((stemOf path).map Char.toLower))
    ∧ (∀ o, get_zone_origin zonedata = some o →
        (stripFancy ((stemOf path).map Char.toLower) = stripFancy o ∨
            allowFancy = true →
          get_zone_name path zonedata allowFancy = .ok o)
        ∧ (stripFancy ((stemOf path).map Char.toLower) ≠ stripFancy o →
            allowFancy = false →
          get_zone_name path zonedata allowFancy =
            .error (.originDiffers o path))) := by
  unfold get_zone_name
  refine ⟨fun h => by simp [h], fun o h => ⟨fun hok => ?_, fun hne hff => ?_⟩⟩
  · rw [h]
    simp only
    rcases hok with hok | hok
    · rw [if_neg]; simp [hok]
    · rw [if_neg]; simp [hok]
  · rw [h]
    simp only
    rw [if_pos]
    exact ⟨hne, by simp [hff]⟩

/-- Witness for C9: both arms at concrete files — an origin that agrees with
the filename, and one that differs with the flag unset. -/
theorem get_zone_name_spec_witness :
    get_zone_name "zones/Example.com.zone".toList
        ["$ORIGIN example.com.".toList] false = .ok "example.com".toList
    ∧ get_zone_name "zones/other.zone".toList
        ["$ORIGIN example.com.".toList] false =
      .error (.originDiffers "example.com".toList "zones/other.zone".toList) :=
  ⟨((get_zone_name_spec "zones/Example.com.zone".toList
        ["$ORIGIN example.com.".toList] false).2 "example.com".toList
      (by decide)).1 (Or.inl (by decide)),
   ((get_zone_name_spec "zones/other.zone".toList
        ["$ORIGIN example.com.".toList] false).2 "example.com".toList
      (by decide)).2 (by decide) rfl⟩

/-- C10: `replace_serial` rewrites and returns `True` exactly when the
pattern finds the old serial as a substitutable SOA serial (one
substitution); otherwise it returns `False` and the contents stay
completely unchanged. -/
theorem replace_serial_spec (contents oldserial newserial : List Char) :
    ((replace_serial contents oldserial newserial).1 = true ↔
      (reScanFrom contents (REPLACE_SERIAL_RE oldserial) 0 contents).isSome
        = true)
    ∧ ((replace_serial contents oldserial newserial).1 = false →
        (replace_serial contents oldserial newserial).2 = contents) := by
  unfold replace_serial
  cases h : reScanFrom contents (REPLACE_SERIAL_RE oldserial) 0 contents with
  | none => simp
  | some m => obtain ⟨b, e, caps⟩ := m; simp

/-- Witness for C10: a matching rewrite and a non-matching no-op at concrete
contents. -/
theorem replace_serial_spec_witness :
    (replace_serial "@ SOA a b 5 x".toList "5".toList "6".toList).1 = true
    ∧ (replace_serial "@ SOA a b 5".toList "5".toList "6".toList).2 =
        "@ SOA a b 5".toList :=
  ⟨(replace_serial_spec "@ SOA a b 5 x".toList "5".toList "6".toList).1.mpr
      (by decide),
   (replace_serial_spec "@ SOA a b 5".toList "5".toList "6".toList).2
      (by decide)⟩

/-!
Theorems for the check phase (C6) and the post-receive reload logic (C7).
-/

/-- C6 counterexample: a compile failure on the first zone aborts the whole
check; the second zone is never reported, although its own check passes. -/
theorem check_updated_zones_abort_counterexample :
    check_updated_zones
        (fun z _ _ => if z = "a".toList then ⟨false, 1, 1⟩ else ⟨true, 1, 1⟩)
        false 1600000000
        [⟨"a.zone".toList, [], none⟩, ⟨"b.zone".toList, [], none⟩]
      = (["a.zone".toList], some (.compileFailure "a.zone".toList))
    ∧ checkZoneFile
        (fun z _ _ => if z = "a".toList then ⟨false, 1, 1⟩ else ⟨true, 1, 1⟩)
        false 1600000000 ⟨"b.zone".toList, [], none⟩ = none := by
  exact ⟨by decide, by decide⟩

/-- C6 (amended): `check_updated_zones` aborts at the first per-zone failure
(compile failure, name mismatch, or non-increased serial): the exception of
the first failing `.zone` file is the outcome, later files are not
processed at all; and the run ends without exception iff every `.zone` file
passes its per-file check. -/
theorem check_updated_zones_first_failure :
    (∀ (compile : List Char → List (List Char) → Int → CompileResults)
        (allowFancy : Bool) (unixtime : Int) (f : AlteredFile)
        (rest : List AlteredFile) (e : HookErr),
      suffixOf f.path = ".zone".toList →
      checkZoneFile compile allowFancy unixtime f = some e →
      check_updated_zones compile allowFancy unixtime (f :: rest) =
        ([f.path], some e))
    ∧ (∀ (compile : List Char → List (List Char) → Int → CompileResults)
        (allowFancy : Bool) (unixtime : Int) (files : List AlteredFile),
        (check_updated_zones compile allowFancy unixtime files).2 = none ↔
          ∀ f ∈ files, suffixOf f.path = ".zone".toList →
            checkZoneFile compile allowFancy unixtime f = none) := by
  constructor
  · intro compile allowFancy unixtime f rest e hsuf hfail
    simp [check_updated_zones, hsuf, hfail]
  · intro compile allowFancy unixtime files
    induction files with
    | nil => simp [check_updated_zones]
    | cons f rest ih =>
      simp only [check_updated_zones]
      by_cases hsuf : suffixOf f.path = ".zone".toList
      · rw [if_neg (by simpa using hsuf)]
        cases hchk : checkZoneFile compile allowFancy unixtime f with
        | some e =>
          constructor
          · intro h; simp at h
          · intro h
            exact absurd (h f (List.mem_cons_self f rest) hsuf) (by simp [hchk])
        | none =>
          change (check_updated_zones compile allowFancy unixtime rest).2
              = none ↔ _
          rw [ih]
          constructor
          · intro h g hg hs
            rcases List.mem_cons.mp hg with rfl | hg2
            · exact hchk
            · exact h g hg2 hs
          · intro h g hg hs
            exact h g (List.mem_cons_of_mem f hg) hs
      · rw [if_pos (by simpa using hsuf), ih]
        constructor
        · intro h g hg hs
          rcases List.mem_cons.mp hg with rfl | hg2
          · exact absurd hs hsuf
          · exact h g hg2 hs
        · intro h g hg hs
          exact h g (List.mem_cons_of_mem f hg) hs

/-- Witness for C6 (amended): the abort arm applied at a concrete failing
first zone followed by a second zone that is consequently skipped. -/
theorem check_updated_zones_first_failure_witness :
    check_updated_zones (fun _ _ _ => ⟨false, 1, 1⟩) false 0
        [⟨"a.zone".toList, [], none⟩, ⟨"b.zone".toList, [], none⟩] =
      (["a.zone".toList], some (.compileFailure "a.zone".toList)) :=
  check_updated_zones_first_failure.1 (fun _ _ _ => ⟨false, 1, 1⟩) false 0
    ⟨"a.zone".toList, [], none⟩ [⟨"b.zone".toList, [], none⟩]
    (.compileFailure "a.zone".toList) (by decide) (by decide)

/-- C7 counterexample: with an added zone file (a reconfiguration trigger)
and a modified zone file, `post_receive` issues the reconfigure command and
still issues the per-zone reload — the reload list is not emptied. -/
theorem post_receive_reload_despite_reconfig :
    postReceiveLine ["a.zone".toList] ["b.zone".toList] (fun _ => []) false
        ["rc".toList] ["rl".toList]
      = .ok [.reconfig "rc".toList, .reload "rl".toList "b".toList] := by
  rfl

/-- C7 (amended): the reload list is computed from the modified `.zone`
files independently of the reconfiguration trigger; a nonempty trigger adds
the reconfigure commands before the per-zone reloads instead of suppressing
them. -/
theorem post_receive_reconfig_plus_reloads
    (alteredACDRU alteredM : List (List Char))
    (contents : List Char → List (List Char)) (allowFancy : Bool)
    (reconfigcmds reloadcmds zs : List (List Char))
    (h : zonesToReload alteredM contents allowFancy = .ok zs) :
    postReceiveLine alteredACDRU alteredM contents allowFancy reconfigcmds
        reloadcmds
      = .ok
        ((if alteredACDRU.filter (fun f => suffixOf f = ".zone".toList) = []
            then [] else reconfigcmds.map .reconfig)
          ++ zs.flatMap fun z => reloadcmds.map fun c => .reload c z) := by
  simp [postReceiveLine, h]

/-- Witness for C7 (amended): the amended statement applied at the concrete
counterexample inputs. -/
theorem post_receive_reconfig_plus_reloads_witness :
    postReceiveLine ["a.zone".toList] ["b.zone".toList] (fun _ => []) false
        ["rc".toList] ["rl".toList]
      = .ok
        ((if (["a.zone".toList].filter
              (fun f => suffixOf f = ".zone".toList)) = []
            then [] else ["rc".toList].map DeployEvent.reconfig)
          ++ ["b".toList].flatMap fun z =>
              ["rl".toList].map fun c => .reload c z) :=
  post_receive_reconfig_plus_reloads ["a.zone".toList] ["b.zone".toList]
    (fun _ => []) false ["rc".toList] ["rl".toList] ["b".toList] rfl

/-!
Theorems for `build` (C4: what build writes; C5: the missing-state crash).
-/

/-- Every character of a `basenameOf` result is a non-slash: the basename is
the maximal slash-free suffix. -/
theorem basenameOf_no_slash (l : List Char) :
    ∀ c ∈ basenameOf l, c ≠ '/' := by
  intro c hc
  unfold basenameOf at hc
  rw [List.mem_reverse] at hc
  have := List.mem_takeWhile_imp hc
  simpa using this

/-- Joining a slash-free component and taking the basename returns the
component. -/
theorem basenameOf_pathJoin (a b : List Char) (h : ∀ c ∈ b, c ≠ '/') :
    basenameOf (pathJoin a b) = b := by
  unfold pathJoin basenameOf
  rw [List.reverse_append, List.reverse_cons, List.append_assoc,
    List.singleton_append]
  rw [List.takeWhile_append_of_pos (by
    intro c hc
    rw [List.mem_reverse] at hc
    simpa using h c hc)]
  rw [List.takeWhile_cons_of_neg (by simp), List.append_nil,
    List.reverse_reverse]

/-- `basenameOf` preserves a slash-free `.zone` suffix. -/
theorem basenameOf_zone_suffix (t : List Char) :
    ∃ t2, basenameOf (t ++ ['.', 'z', 'o', 'n', 'e'])
      = t2 ++ ['.', 'z', 'o', 'n', 'e'] := by
  refine ⟨(List.takeWhile (fun c => c ≠ '/') t.reverse).reverse, ?_⟩
  unfold basenameOf
  rw [List.reverse_append]
  rw [show (['.', 'z', 'o', 'n', 'e'] : List Char).reverse
      = ['e', 'n', 'o', 'z', '.'] from rfl]
  rw [List.takeWhile_append_of_pos (by decide)]
  rw [List.reverse_append]
  rfl

/-- Nothing ending in `.zone` is named `zones_deploy.json`. -/
theorem zone_suffix_ne_state (t : List Char) :
    t ++ ['.', 'z', 'o', 'n', 'e'] ≠ ZONES_DEPLOY_STATE := by
  intro h
  have h2 : (t ++ ['.', 'z', 'o', 'n', 'e']).getLast?
      = ZONES_DEPLOY_STATE.getLast? := by rw [h]
  rw [List.getLast?_append] at h2
  rw [show (['.', 'z', 'o', 'n', 'e'] : List Char).getLast? = some 'e'
    from rfl] at h2
  rw [show ZONES_DEPLOY_STATE.getLast? = some 'n' from rfl] at h2
  simp [Option.or] at h2

/-- The path of a successful `generateZone` write. -/
theorem generateZone_fst (args : BuildArgs) (s : List (List Char × Int))
    (z zf text : List Char) (w : List Char × List Char)
    (h : generateZone args s z zf text = .ok w) :
    w.1 = pathJoin args.buildSubdir (basenameOf zf) := by
  unfold generateZone at h
  cases hg : dictGet s z with
  | none => rw [hg] at h; cases h
  | some v => rw [hg] at h; cases h; rfl

/-- Every entry produced by `dictUpsert` carries the inserted value or was
already present. -/
theorem dictUpsert_values (m : List (List Char × List Char))
    (k v : List Char) :
    ∀ p ∈ dictUpsert m k v, p.2 = v ∨ p ∈ m := by
  intro p hp
  unfold dictUpsert at hp
  split_ifs at hp with hf
  · rcases List.mem_map.mp hp with ⟨q, hq, hpe⟩
    by_cases h : q.1 = k
    · left; rw [← hpe]; simp [h]
    · right; rw [← hpe]; simp [h]; exact hq
  · rcases List.mem_append.mp hp with h | h
    · right; exact h
    · left; simp at h; rw [h]

/-- Every value of the `all_zones` catalog dict is one of the listed zone
files. -/
theorem allZonesMap_values (zoneFiles : List (List Char)) :
    ∀ p ∈ allZonesMap zoneFiles, p.2 ∈ zoneFiles := by
  have key : ∀ (zfs : List (List Char)) (m : List (List Char × List Char)),
      ∀ p ∈ zfs.foldl (fun m zf => dictUpsert m (stemOf zf) zf) m,
        p.2 ∈ zfs ∨ p ∈ m := by
    intro zfs
    induction zfs with
    | nil => intro m p hp; right; simpa using hp
    | cons zf rest ih =>
      intro m p hp
      rw [List.foldl_cons] at hp
      rcases ih (dictUpsert m (stemOf zf) zf) p hp with h | h
      · left; exact List.mem_cons_of_mem zf h
      · rcases dictUpsert_values m (stemOf zf) zf p h with h2 | h2
        · left; rw [h2]; exact List.mem_cons_self zf rest
        · right; exact h2
  intro p hp
  rcases key zoneFiles [] p hp with h | h
  · exact h
  · simp at h

/-- Characterization of the file writes of the `build` loop: every write is
either inherited from the accumulator or is the built file of one of the
catalog entries, placed under the build subdirectory. -/
theorem buildLoop_writes (args : BuildArgs) (changed : List (List Char))
    (contents : List Char → List Char) :
    ∀ (pairs : List (List Char × List Char))
      (serials? : Option (List (List Char × Int)))
      (writes0 : List (List Char × List Char))
      (serials2 : Option (List (List Char × Int)))
      (writes2 : List (List Char × List Char)),
      buildLoop args changed contents pairs serials? writes0
        = .ok (serials2, writes2) →
      ∀ w ∈ writes2, w ∈ writes0 ∨
        ∃ p ∈ pairs, w.1 = pathJoin args.buildSubdir (basenameOf p.2) := by
  intro pairs
  induction pairs with
  | nil =>
    intro serials? w0 s2 w2 h w hw
    left
    unfold buildLoop at h
    cases h
    exact hw
  | cons pr rest ih =>
    intro serials? w0 s2 w2 h w hw
    obtain ⟨z, zf⟩ := pr
    unfold buildLoop at h
    cases serials? with
    | none => cases h
    | some serials =>
      simp only at h
      cases hg : generateZone args
          (if zf ∈ changed ∨ (dictGet serials z).isNone ∨ args.allZones then
            update_serial serials z args.now args.todayserial
          else serials) z zf (contents zf) with
      | error e => rw [hg] at h; cases h
      | ok w3 =>
        rw [hg] at h
        simp only at h
        rcases ih _ _ _ _ h w hw with h2 | h2
        · rcases List.mem_append.mp h2 with h3 | h3
          · left; exact h3
          · right
            refine ⟨(z, zf), List.mem_cons_self _ _, ?_⟩
            simp at h3
            rw [h3]
            exact generateZone_fst args _ z zf (contents zf) w3 hg
        · right
          obtain ⟨p, hp, hpe⟩ := h2
          exact ⟨p, List.mem_cons_of_mem _ hp, hpe⟩

/-- C4 counterexample: a complete `build` run with a loaded prior state
writes exactly the built zone file and the rendered configuration — no file
named `zones_deploy.json` (no staging state file) is among the writes, and
the `State` record it could have serialized holds no hash map at all. -/
theorem build_serializes_no_state_counterexample :
    buildRun
        ⟨"build".toList, "knot-zones.conf.j2".toList, false, 1600000000,
          2024010100⟩
        (some ⟨"c".toList, [("a".toList, 5)]⟩) ["a.zone".toList] []
        (fun _ => "@ SOA x y 1 ;SERIALAUTOUPDATE".toList) "conf".toList
      = .ok (some ⟨"c".toList, [("a".toList, 5)]⟩,
          [("build/a.zone".toList, "@ SOA x y 5".toList),
           ("build/knot-zones.conf".toList, "conf".toList)])
    ∧ basenameOf "build/a.zone".toList ≠ ZONES_DEPLOY_STATE
    ∧ basenameOf "build/knot-zones.conf".toList ≠ ZONES_DEPLOY_STATE := by
  refine ⟨rfl, by decide, by decide⟩

/-- C4 (amended): `build` assembles the new state in memory only; every file
a successful run writes is either a built zone file (for `.zone` sources)
or the rendered configuration under the build subdirectory, and with the
default template none of them is named `zones_deploy.json` — so no staging
state file is written and the deployed state file is untouched. -/
theorem build_writes_no_state_file (args : BuildArgs) (st : StateRec)
    (zoneFiles changed : List (List Char)) (contents : List Char → List Char)
    (renderedConf : List Char) (st2 : Option StateRec)
    (writes : List (List Char × List Char))
    (hz : ∀ zf ∈ zoneFiles, ∃ t, zf = t ++ ['.', 'z', 'o', 'n', 'e'])
    (hconf : args.confTemplate = "knot-zones.conf.j2".toList)
    (hrun : buildRun args (some st) zoneFiles changed contents renderedConf
        = .ok (st2, writes)) :
    ∀ w ∈ writes, basenameOf w.1 ≠ ZONES_DEPLOY_STATE := by
  intro w hw
  unfold buildRun at hrun
  cases hl : buildLoop args changed contents (allZonesMap zoneFiles)
      ((some st).map fun st => st.serials) [] with
  | error e => rw [hl] at hrun; cases hrun
  | ok r =>
    obtain ⟨s2, ws⟩ := r
    rw [hl] at hrun
    simp only at hrun
    cases hrun
    rcases List.mem_append.mp hw with h2 | h2
    · rcases buildLoop_writes args changed contents _ _ _ _ _ hl w h2 with
        h3 | h3
      · simp at h3
      · obtain ⟨p, hp, hpe⟩ := h3
        obtain ⟨t, ht⟩ := hz p.2 (allZonesMap_values zoneFiles p hp)
        rw [hpe]
        rw [basenameOf_pathJoin _ _ (basenameOf_no_slash p.2)]
        rw [ht]
        obtain ⟨t2, ht2⟩ := basenameOf_zone_suffix t
        rw [ht2]
        exact zone_suffix_ne_state t2
    · simp at h2
      rw [h2]
      unfold confOutPath
      rw [hconf]
      rw [show stemOf "knot-zones.conf.j2".toList
        = "knot-zones.conf".toList from rfl]
      rw [basenameOf_pathJoin _ _ (by decide)]
      decide

/-- Witness for C4 (amended): applied at the concrete run of the
counterexample, for the built zone file write. -/
theorem build_writes_no_state_file_witness :
    basenameOf "build/a.zone".toList ≠ ZONES_DEPLOY_STATE :=
  build_writes_no_state_file
    ⟨"build".toList, "knot-zones.conf.j2".toList, false, 1600000000,
      2024010100⟩
    ⟨"c".toList, [("a".toList, 5)]⟩ ["a.zone".toList] []
    (fun _ => "@ SOA x y 1 ;SERIALAUTOUPDATE".toList) "conf".toList
    (some ⟨"c".toList, [("a".toList, 5)]⟩)
    [("build/a.zone".toList, "@ SOA x y 5".toList),
     ("build/knot-zones.conf".toList, "conf".toList)]
    (by
      intro zf hzf
      simp at hzf
      exact ⟨"a".toList, by rw [hzf]; rfl⟩)
    rfl rfl
    ("build/a.zone".toList, "@ SOA x y 5".toList) (by simp)

/-- C5: with the state file absent (`main` leaves `ctxobj.state = None`) and
a zone present, `build` does not complete: the first loop iteration
dereferences `ctxobj.state` and raises `AttributeError` before assigning
any serial.  By contrast, when a prior state exists but merely lacks the
zone, the lazy default `2000010100` flows through `get_increased_serial`
and yields the date code, as the claim describes. -/
theorem build_without_state_raises :
    buildRun
        ⟨"build".toList, "knot-zones.conf.j2".toList, false, 1600000000,
          2024010100⟩
        none ["example.com.zone".toList] []
        (fun _ => "@ SOA a b 1 ;SERIALAUTOUPDATE".toList) "conf".toList
      = .error .attributeError
    ∧ buildRun
        ⟨"build".toList, "knot-zones.conf.j2".toList, false, 1600000000,
          2024010100⟩
        (some ⟨"c".toList, []⟩) ["example.com.zone".toList] []
        (fun _ => "@ SOA a b 1 ;SERIALAUTOUPDATE".toList) "conf".toList
      = .ok (some ⟨"c".toList, [("example.com".toList, 2024010100)]⟩,
          [("build/example.com.zone".toList,
            "@ SOA a b 2024010100".toList),
           ("build/knot-zones.conf".toList, "conf".toList)]) :=
  ⟨rfl, rfl⟩

end DnsCicd
